import Mathlib

/-!
# Verification of `pycoin/key/Key.py`

A shallow embedding of the `Key` class of `src/pycoin/key/Key.py` and proofs
about its construction validation, byte encodings, digest caching, signing
and verification.

Conventions of the embedding:

* Python byte strings become `List Nat` (each entry one byte).
* Python `None`-able values become `Option`.
* Python exceptions become `Except KeyError`; each distinct exception class
  raised by the source is one constructor of `KeyError`.
* The external collaborators that the source imports from elsewhere in the
  repository (`pycoin.ecdsa`, `pycoin.encoding.*`, `pycoin.satoshi.der`,
  the network object) are not under `src/`; they are modelled from the spec
  as a `Generator` capability record, a `Network` capability record, an
  abstract short-hash function parameter, and concrete byte codecs.
* Methods that assign to attributes (`hash160` fills the two lazy cache
  slots) are modelled by explicit state passing: they return the produced
  value together with the updated `Key`.  Methods containing no assignment
  (`sec`, `wif`, `sign`, `verify`, ...) are pure functions of the `Key`.
-/

/-- The distinct failure kinds raised by the source.
`invalidArguments` is the plain `ValueError("exactly one of secret_exponent
or public_pair must be passed.")` of `Key.__init__`; `invalidSecretExponent`
is `InvalidSecretExponentError`; `invalidPublicPair` is
`InvalidPublicPairError`; `notPrivate` is the `RuntimeError` of `Key.sign`;
`invalidEncoding` is the decode failure of the external codecs. -/
inductive KeyError where
  | invalidArguments
  | invalidSecretExponent
  | invalidPublicPair
  | notPrivate
  | invalidEncoding
  deriving DecidableEq, Repr

/-- Modelled from the spec: the abstract elliptic-curve group capability
("Generator") consumed by the core.  §6 of the spec lists its interface:
`order()`, scalar-times-base-point multiplication (the source writes
`secret_exponent * generator`), `contains_point(x, y)`, and the
`sign`/`verify` primitives over a big-endian integer message digest.
`mulBase s` is `s * generator`; its result is a coordinate pair whose
entries may be the Python `None` (the point at infinity has `None`
coordinates, which `Key.__init__` rejects via `None in self._public_pair`).
`recoverY x odd` solves the curve equation for `y` at `x` and picks the
root whose parity (oddness) matches `odd`, as the compressed public-key
decoding of spec §4.2 requires; it is `none` when no root exists. -/
structure Generator where
  order : Nat
  contains_point : Nat → Nat → Bool
  mulBase : Nat → Option Nat × Option Nat
  recoverY : Nat → Bool → Option Nat
  sign : Nat → Nat → Nat × Nat
  verify : Nat × Nat → Nat → Nat × Nat → Bool

/-- Modelled from the spec: the abstract network-profile capability.
§6 of the spec: `privateExportEncode` (the source's
`_network.wif_for_blob`), `addressEncode` (`_network.address.for_p2pkh`)
and `publicHexAnnotate` (`_network.sec_text_for_blob`). -/
structure Network where
  wif_for_blob : List Nat → String
  address_for_p2pkh : List Nat → String
  sec_text_for_blob : List Nat → String

/-- Modelled from the spec: `pycoin.encoding.bytes32.to_bytes_32`, the
fixed-width 32-byte big-endian encoding of a scalar ("32-byte big-endian
scalar", spec §6).  `to_bytes_be n v` is the `n`-byte big-endian encoding
of `v % 256 ^ n`, most significant byte first. -/
def to_bytes_be : Nat → Nat → List Nat
  | 0, _ => []
  | n + 1, v => to_bytes_be n (v / 256) ++ [v % 256]

def to_bytes_32 (v : Nat) : List Nat := to_bytes_be 32 v

/-- Modelled from the spec: `pycoin.encoding.bytes32.from_bytes_32`,
interpreting a byte string as a big-endian integer ("interprets the digest
as a big-endian integer", spec §4.6). -/
def from_bytes (l : List Nat) : Nat := l.foldl (fun a b => a * 256 + b) 0

def from_bytes_32 (l : List Nat) : Nat := from_bytes l

/-- Modelled from the spec: `pycoin.encoding.sec.public_pair_to_sec`
(spec §4.3 / §6).  Compressed: one tag byte (`0x02` if `y` even, `0x03`
if odd) then the 32-byte big-endian `x`.  Uncompressed: tag `0x04`, then
32-byte big-endian `x`, then 32-byte big-endian `y`. -/
def public_pair_to_sec (p : Nat × Nat) (compressed : Bool) : List Nat :=
  if compressed then
    (if p.2 % 2 = 0 then 2 else 3) :: to_bytes_32 p.1
  else
    4 :: (to_bytes_32 p.1 ++ to_bytes_32 p.2)

/-- Modelled from the spec: `pycoin.encoding.sec.is_sec_compressed`
(spec §4.2): the leading tag byte selects the form, `0x02`/`0x03`
meaning compressed. -/
def is_sec_compressed (sec : List Nat) : Bool :=
  match sec with
  | [] => false
  | t :: _ => t == 2 || t == 3

/-- Modelled from the spec: `pycoin.encoding.sec.sec_to_public_pair`
(spec §4.2).  Tag `0x04`: uncompressed, followed by raw 32-byte `x` and
`y`.  Tags `0x02`/`0x03`: compressed, followed by 32-byte `x`; `y` is
recovered by solving the curve equation, picking the root whose parity is
the tag's low bit.  Any other tag, a truncated length, or a recovered
point failing curve membership is a decode failure (`InvalidEncoding`). -/
def sec_to_public_pair (g : Generator) (sec : List Nat) :
    Except KeyError (Nat × Nat) :=
  match sec with
  | [] => .error .invalidEncoding
  | t :: rest =>
    if t = 4 then
      if rest.length = 64 then
        let x := from_bytes (rest.take 32)
        let y := from_bytes (rest.drop 32)
        if g.contains_point x y then .ok (x, y) else .error .invalidEncoding
      else .error .invalidEncoding
    else if t = 2 ∨ t = 3 then
      if rest.length = 32 then
        let x := from_bytes rest
        match g.recoverY x (t == 3) with
        | some y =>
          if g.contains_point x y then .ok (x, y) else .error .invalidEncoding
        | none => .error .invalidEncoding
      else .error .invalidEncoding
    else .error .invalidEncoding

/-- Modelled from the spec: `pycoin.satoshi.der.sigencode_der`, the external
signature codec ("encode(r, s) -> bytes", a self-delimiting byte format,
spec §6).  Each integer is a tagged, length-prefixed big-endian byte run;
the pair is wrapped in a tagged, length-prefixed sequence. -/
def derIntBytes (n : Nat) : List Nat := to_bytes_be 32 n

def sigencode_der (r s : Nat) : List Nat :=
  let body := (2 :: 32 :: derIntBytes r) ++ (2 :: 32 :: derIntBytes s)
  48 :: body.length :: body

/-- Modelled from the spec: `pycoin.satoshi.der.sigdecode_der`, the external
signature codec ("decode(bytes) -> (r, s) | DecodeError", spec §6).
Checks the sequence tag, the declared lengths and the integer tags; any
malformed input is a decode failure. -/
def sigdecode_der (sig : List Nat) : Except KeyError (Nat × Nat) :=
  match sig with
  | 48 :: len :: body =>
    if body.length = len ∧ len = 68 then
      match body with
      | 2 :: 32 :: restR =>
        let rBytes := restR.take 32
        match restR.drop 32 with
        | 2 :: 32 :: sBytes => .ok (from_bytes rBytes, from_bytes sBytes)
        | _ => .error .invalidEncoding
      | _ => .error .invalidEncoding
    else .error .invalidEncoding
  | _ => .error .invalidEncoding

/-- The `Key` value of `src/pycoin/key/Key.py`, after a successful
`__init__`.  The constructor validates before the object becomes usable,
so a constructed `Key` always holds a concrete on-curve coordinate pair:
the transient `None`s of the raw arguments live only inside `Key.init`
below, and the `public_pair is None` guard of `Key.sec` is unreachable
for a constructed `Key`.  `_generator` and `_network` are the injected
capabilities (`self._generator`, `self._network`); `hash160_compressed`
and `hash160_uncompressed` are the two lazy digest-cache slots
(`self._hash160_compressed`, `self._hash160_uncompressed`). -/
structure Key where
  secret_exponent : Option Nat
  public_pair : Nat × Nat
  is_compressed : Bool
  hash160_compressed : Option (List Nat)
  hash160_uncompressed : Option (List Nat)
  generator : Generator
  network : Network

/-- The final check of `Key.__init__` (lines 67-69 of the source):
`(None in self._public_pair) or not contains_point(*self._public_pair)`
raises `InvalidPublicPairError`; otherwise the constructor completes with
the given fields and both digest-cache slots empty. -/
def Key.initFinish (g : Generator) (net : Network) (se : Option Nat)
    (pair : Option Nat × Option Nat) (ic : Bool) : Except KeyError Key :=
  match pair with
  | (some x, some y) =>
    if g.contains_point x y then
      .ok { secret_exponent := se, public_pair := (x, y),
            is_compressed := ic, hash160_compressed := none,
            hash160_uncompressed := none, generator := g, network := net }
    else .error .invalidPublicPair
  | _ => .error .invalidPublicPair

/-- `Key.__init__` (lines 32-69 of the source).  The checks in source
order: first `[secret_exponent, public_pair].count(None) != 1` raises the
plain `ValueError` (`invalidArguments`); then, when a secret exponent is
supplied, the range check `1 <= secret_exponent < generator.order()`
raises `InvalidSecretExponentError` and otherwise the public pair is
derived by `secret_exponent * generator`; finally the pair check of
`Key.initFinish` runs on the supplied or derived pair. -/
def Key.init (g : Generator) (net : Network) (secret_exponent : Option Nat)
    (public_pair : Option (Option Nat × Option Nat)) (is_compressed : Bool) :
    Except KeyError Key :=
  match secret_exponent, public_pair with
  | none, none => .error .invalidArguments
  | some _, some _ => .error .invalidArguments
  | some se, none =>
    if se < 1 ∨ se ≥ g.order then .error .invalidSecretExponent
    else Key.initFinish g net (some se) (g.mulBase se) is_compressed
  | none, some p => Key.initFinish g net none p is_compressed

/-- `Key.is_private` (line 79). -/
def Key.is_private (k : Key) : Bool := k.secret_exponent.isSome

/-- `Key.sec` (lines 108-117): the SEC representation.  The source's
`if public_pair is None: return None` branch is unreachable for a
constructed `Key` (see the `Key` structure comment), so `sec` always
produces bytes here. -/
def Key.sec (k : Key) (is_compressed : Option Bool := none) : List Nat :=
  let c := is_compressed.getD k.is_compressed
  public_pair_to_sec k.public_pair c

/-- `Key.from_sec` (lines 71-77): decode an SEC bytestream, then construct
via `__init__` with the detected compression flag. -/
def Key.from_sec (g : Generator) (net : Network) (sec : List Nat) :
    Except KeyError Key :=
  match sec_to_public_pair g sec with
  | .error e => .error e
  | .ok public_pair =>
    Key.init g net none (some (some public_pair.1, some public_pair.2))
      (is_sec_compressed sec)

/-- `Key.wif` (lines 88-100): `None` for a public-only key; otherwise the
32-byte big-endian scalar, a trailing `0x01` byte iff the effective
compression flag is set, passed to `_network.wif_for_blob`. -/
def Key.wif (k : Key) (is_compressed : Option Bool := none) : Option String :=
  match k.secret_exponent with
  | none => none
  | some se =>
    let c := is_compressed.getD k.is_compressed
    let blob := to_bytes_32 se ++ (if c then [1] else [])
    some (k.network.wif_for_blob blob)

/-- `Key.sign` (lines 182-191): `RuntimeError` (`notPrivate`) when the key
has no secret exponent; otherwise DER-encode `generator.sign(secret, val)`
where `val` is the digest read as a big-endian integer. -/
def Key.sign (k : Key) (h : List Nat) : Except KeyError (List Nat) :=
  match k.secret_exponent with
  | none => .error .notPrivate
  | some se =>
    let val := from_bytes_32 h
    let rs := k.generator.sign se val
    .ok (sigencode_der rs.1 rs.2)

/-- `Key.verify` (lines 193-199): decode the signature via the external
codec and delegate to `generator.verify`.  The source contains no handler
around `sigdecode_der(sig)`, so a decode failure propagates. -/
def Key.verify (k : Key) (h : List Nat) (sig : List Nat) :
    Except KeyError Bool := do
  let val := from_bytes_32 h
  let pubkey := k.public_pair
  let rs ← sigdecode_der sig
  return k.generator.verify pubkey val rs

/-- `Key.hash160` (lines 126-139), with the short-hash primitive
`pycoin.encoding.hash.hash160` passed as the abstract parameter `hashF`
(spec §6: "Short-hash primitive: hash(bytes) -> fixed-size bytes").
The method lazily fills one of the two cache slots, so it returns the
digest together with the updated `Key`. -/
def Key.hash160 (k : Key) (hashF : List Nat → List Nat)
    (is_compressed : Option Bool := none) : List Nat × Key :=
  let c := is_compressed.getD k.is_compressed
  if c then
    match k.hash160_compressed with
    | some v => (v, k)
    | none =>
      let v := hashF (k.sec (some c))
      (v, { k with hash160_compressed := some v })
  else
    match k.hash160_uncompressed with
    | some v => (v, k)
    | none =>
      let v := hashF (k.sec (some c))
      (v, { k with hash160_uncompressed := some v })

/-- `Key.fingerprint` (lines 141-142): first 4 bytes of `hash160`. -/
def Key.fingerprint (k : Key) (hashF : List Nat → List Nat)
    (is_compressed : Option Bool := none) : List Nat × Key :=
  let r := k.hash160 hashF is_compressed
  (r.1.take 4, r.2)

/-- `Key.address` (lines 144-148): the p2pkh address of `hash160`. -/
def Key.address (k : Key) (hashF : List Nat → List Nat)
    (is_compressed : Option Bool := none) : String × Key :=
  let r := k.hash160 hashF is_compressed
  (k.network.address_for_p2pkh r.1, r.2)

/-- `Key.subkey_for_path` (lines 166-167): returns `self`. -/
def Key.subkey_for_path (k : Key) (path : String) : Key := k

/-- `Key.subkey` (lines 169-173): returns `self`. -/
def Key.subkey (k : Key) (path_to_subkey : String) : Key := k

/-- `Key.subkeys` (lines 175-180): a generator yielding exactly `self`. -/
def Key.subkeys (k : Key) (path_to_subkeys : String) : List Key := [k]

/-- `Key.public_copy` (lines 161-164). -/
def Key.public_copy (k : Key) : Except KeyError Key :=
  match k.secret_exponent with
  | none => .ok k
  | some _ =>
    Key.init k.generator k.network none
      (some (some k.public_pair.1, some k.public_pair.2)) k.is_compressed

/-! ## Concrete test instances

A small concrete generator (the curve `y² = x³ + 7` over `F₁₁`, base
point `(2, 2)`) and a trivial network profile, used only to instantiate
the theorems below at concrete inputs. -/

def testGenerator : Generator where
  order := 5
  contains_point := fun x y => (y * y) % 11 == (x * x * x + 7) % 11
  mulBase := fun s =>
    if s = 1 then (some 2, some 2)
    else if s = 2 then (some 0, some 0)
    else (none, none)
  recoverY := fun x odd =>
    (List.range 11).find? fun y =>
      ((y * y) % 11 == (x * x * x + 7) % 11) && ((y % 2 == 1) == odd)
  sign := fun se val => (se + val, se * val + 1)
  verify := fun _ _ rs => decide (rs.1 ≠ 0)

def testNetwork : Network where
  wif_for_blob := fun blob => toString blob
  address_for_p2pkh := fun blob => toString blob
  sec_text_for_blob := fun blob => toString blob

/-! ## Byte-codec lemmas -/

theorem to_bytes_be_length (n v : Nat) : (to_bytes_be n v).length = n := by
  induction n generalizing v with
  | zero => rfl
  | succ m ih => simp [to_bytes_be, ih]

theorem from_bytes_append_singleton (l : List Nat) (b : Nat) :
    from_bytes (l ++ [b]) = from_bytes l * 256 + b := by
  simp [from_bytes, List.foldl_append]

theorem from_bytes_to_bytes_be (n v : Nat) :
    from_bytes (to_bytes_be n v) = v % 256 ^ n := by
  induction n generalizing v with
  | zero => simp [to_bytes_be, from_bytes, Nat.mod_one]
  | succ m ih =>
    rw [to_bytes_be, from_bytes_append_singleton, ih, pow_succ,
      mul_comm (256 ^ m) 256, Nat.mod_mul]
    ring

theorem to_bytes_32_length (v : Nat) : (to_bytes_32 v).length = 32 :=
  to_bytes_be_length 32 v

theorem from_bytes_32_to_bytes_32 (v : Nat) (h : v < 2 ^ 256) :
    from_bytes_32 (to_bytes_32 v) = v := by
  have h256 : (256 : Nat) ^ 32 = 2 ^ 256 := by norm_num
  rw [from_bytes_32, to_bytes_32, from_bytes_to_bytes_be, h256,
    Nat.mod_eq_of_lt h]

theorem take_32_append_to_bytes (x : Nat) (b : List Nat) :
    (to_bytes_32 x ++ b).take 32 = to_bytes_32 x := by
  rw [← to_bytes_32_length x, List.take_left]

theorem drop_32_append_to_bytes (x : Nat) (b : List Nat) :
    (to_bytes_32 x ++ b).drop 32 = b := by
  rw [← to_bytes_32_length x, List.drop_left]

/-! ## Helper lemmas about construction -/

theorem Key.initFinish_ne_invalidSecretExponent (g : Generator)
    (net : Network) (se : Option Nat) (pair : Option Nat × Option Nat)
    (ic : Bool) :
    Key.initFinish g net se pair ic ≠ .error .invalidSecretExponent := by
  rcases pair with ⟨ox, oy⟩
  cases ox <;> cases oy <;> simp only [Key.initFinish] <;>
    first
      | (split <;> simp)
      | simp

theorem Key.initFinish_ok_fields (g : Generator) (net : Network)
    (se : Option Nat) (pair : Option Nat × Option Nat) (ic : Bool)
    (k : Key) (h : Key.initFinish g net se pair ic = .ok k) :
    g.contains_point k.public_pair.1 k.public_pair.2 = true ∧
    pair = (some k.public_pair.1, some k.public_pair.2) ∧
    k.secret_exponent = se ∧ k.is_compressed = ic ∧
    k.hash160_compressed = none ∧ k.hash160_uncompressed = none ∧
    k.generator = g ∧ k.network = net := by
  rcases pair with ⟨ox, oy⟩
  cases ox <;> cases oy <;> simp only [Key.initFinish] at h <;>
    try exact absurd h (by simp)
  rename_i x y
  by_cases hc : g.contains_point x y
  · rw [if_pos hc] at h
    cases h
    refine ⟨hc, rfl, rfl, rfl, rfl, rfl, rfl, rfl⟩
  · rw [if_neg hc] at h
    exact absurd h (by simp)

theorem Key.initFinish_contains_ok (g : Generator) (net : Network)
    (se : Option Nat) (x y : Nat) (ic : Bool)
    (hc : g.contains_point x y = true) :
    Key.initFinish g net se (some x, some y) ic =
      .ok { secret_exponent := se, public_pair := (x, y),
            is_compressed := ic, hash160_compressed := none,
            hash160_uncompressed := none, generator := g, network := net } := by
  simp [Key.initFinish, hc]

/-- The key constructed from secret exponent 1 over `testGenerator`. -/
def testKey : Key :=
  { secret_exponent := some 1, public_pair := (2, 2), is_compressed := true,
    hash160_compressed := none, hash160_uncompressed := none,
    generator := testGenerator, network := testNetwork }

/-- A public-only key over `testGenerator` holding the base point. -/
def testPublicKey : Key :=
  { secret_exponent := none, public_pair := (2, 2), is_compressed := true,
    hash160_compressed := none, hash160_uncompressed := none,
    generator := testGenerator, network := testNetwork }

theorem testKey_init :
    Key.init testGenerator testNetwork (some 1) none true = .ok testKey := by
  rfl

theorem testPublicKey_init :
    Key.init testGenerator testNetwork none (some (some 2, some 2)) true =
      .ok testPublicKey := by
  rfl

/-- A concrete short-hash stand-in used to instantiate theorems that are
universally quantified over the hash primitive. -/
def testHash (l : List Nat) : List Nat := List.take 20 (0 :: l)

/-! ## Claims -/

/-- C3: constructing a Key with both `secret_exponent` and `public_pair`
supplied, or with neither supplied, fails with the distinct error kind
`InvalidArguments` (the plain `ValueError` of `Key.__init__`, distinct
from `InvalidSecretExponentError` and `InvalidPublicPairError`), and no
Key is produced. -/
theorem C3_init_invalid_arguments (g : Generator) (net : Network)
    (se : Nat) (p : Option Nat × Option Nat) (ic : Bool) :
    Key.init g net (some se) (some p) ic = .error .invalidArguments ∧
    Key.init g net none none ic = .error .invalidArguments := by
  exact ⟨rfl, rfl⟩

/-- C4: for every integer `s` with `s < 1` or `s >= generator.order()`,
constructing a Key from `secret_exponent = s` fails with the distinct
error kind `InvalidSecretExponent`; for `s` in range the scalar-range
check passes (the construction never fails with that error kind). -/
theorem C4_init_secret_exponent_range (g : Generator) (net : Network)
    (s : Nat) (ic : Bool) :
    (s < 1 ∨ s ≥ g.order →
      Key.init g net (some s) none ic = .error .invalidSecretExponent) ∧
    (1 ≤ s → s < g.order →
      Key.init g net (some s) none ic ≠ .error .invalidSecretExponent) := by
  constructor
  · intro h
    simp only [Key.init, if_pos h]
  · intro h1 h2
    have hcond : ¬(s < 1 ∨ s ≥ g.order) := by omega
    simp only [Key.init, if_neg hcond]
    exact Key.initFinish_ne_invalidSecretExponent g net (some s) (g.mulBase s) ic

theorem C4_init_secret_exponent_range_witness :
    (((0 : Nat) < 1 ∨ (0 : Nat) ≥ testGenerator.order) ∧
      Key.init testGenerator testNetwork (some 0) none true =
        .error .invalidSecretExponent) ∧
    ((1 ≤ (1 : Nat)) ∧ ((1 : Nat) < testGenerator.order) ∧
      Key.init testGenerator testNetwork (some 1) none true ≠
        .error .invalidSecretExponent) :=
  ⟨⟨by decide,
    (C4_init_secret_exponent_range testGenerator testNetwork 0 true).1
      (by decide)⟩,
   ⟨by decide, by decide,
    (C4_init_secret_exponent_range testGenerator testNetwork 1 true).2
      (by decide) (by decide)⟩⟩

/-- C10: `subkey_for_path` and `subkey` return the Key itself unchanged,
and `subkeys` yields exactly that same Key once: the hierarchical
derivation methods of the base `Key` are identity operations. -/
theorem C10_subkey_identity (k : Key) (p : String) :
    k.subkey_for_path p = k ∧ k.subkey p = k ∧ k.subkeys p = [k] :=
  ⟨rfl, rfl, rfl⟩

/-- C5: a supplied public pair that has a `None` coordinate (the point at
infinity) or fails `contains_point` makes construction fail with the
distinct error kind `InvalidPublicPair`; likewise for the pair derived
from a supplied in-range scalar; and every successfully constructed Key's
public pair satisfies curve membership. -/
theorem C5_init_public_pair_validation (g : Generator) (net : Network)
    (ic : Bool) :
    (∀ x y : Nat, g.contains_point x y = false →
      Key.init g net none (some (some x, some y)) ic =
        .error .invalidPublicPair) ∧
    (∀ p : Option Nat × Option Nat, p.1 = none ∨ p.2 = none →
      Key.init g net none (some p) ic = .error .invalidPublicPair) ∧
    (∀ s x y : Nat, 1 ≤ s → s < g.order → g.mulBase s = (some x, some y) →
      g.contains_point x y = false →
      Key.init g net (some s) none ic = .error .invalidPublicPair) ∧
    (∀ s : Nat, 1 ≤ s → s < g.order →
      ((g.mulBase s).1 = none ∨ (g.mulBase s).2 = none) →
      Key.init g net (some s) none ic = .error .invalidPublicPair) ∧
    (∀ (se : Option Nat) (pp : Option (Option Nat × Option Nat)) (ic' : Bool)
      (k : Key), Key.init g net se pp ic' = .ok k →
      g.contains_point k.public_pair.1 k.public_pair.2 = true) := by
  refine ⟨?_, ?_, ?_, ?_, ?_⟩
  · intro x y hc
    simp [Key.init, Key.initFinish, hc]
  · intro p hp
    rcases p with ⟨ox, oy⟩
    rcases hp with h | h
    · cases h
      simp [Key.init, Key.initFinish]
    · cases h
      cases ox <;> simp [Key.init, Key.initFinish]
  · intro s x y h1 h2 hmul hc
    have hcond : ¬(s < 1 ∨ s ≥ g.order) := by omega
    simp [Key.init, if_neg hcond, hmul, Key.initFinish, hc]
    omega
  · intro s h1 h2 hp
    have hcond : ¬(s < 1 ∨ s ≥ g.order) := by omega
    simp only [Key.init, if_neg hcond]
    rcases hmul : g.mulBase s with ⟨ox, oy⟩
    rw [hmul] at hp
    rcases hp with h | h
    · cases h
      simp [Key.initFinish]
    · cases h
      cases ox <;> simp [Key.initFinish]
  · intro se pp ic' k hk
    match se, pp with
    | none, none => exact absurd hk (by simp [Key.init])
    | some a, some b => exact absurd hk (by simp [Key.init])
    | some s, none =>
      simp only [Key.init] at hk
      split at hk
      · exact absurd hk (by simp)
      · exact (Key.initFinish_ok_fields g net (some s) (g.mulBase s) ic' k
          hk).1
    | none, some p =>
      exact (Key.initFinish_ok_fields g net none p ic' k hk).1

theorem C5_init_public_pair_validation_witness :
    (testGenerator.contains_point 0 0 = false ∧
      Key.init testGenerator testNetwork none (some (some 0, some 0)) true =
        .error .invalidPublicPair) ∧
    (((none, some 2) : Option Nat × Option Nat).1 = none ∧
      Key.init testGenerator testNetwork none (some (none, some 2)) true =
        .error .invalidPublicPair) ∧
    (1 ≤ 2 ∧ 2 < testGenerator.order ∧
      testGenerator.mulBase 2 = (some 0, some 0) ∧
      testGenerator.contains_point 0 0 = false ∧
      Key.init testGenerator testNetwork (some 2) none true =
        .error .invalidPublicPair) ∧
    (1 ≤ 3 ∧ 3 < testGenerator.order ∧
      (testGenerator.mulBase 3).1 = none ∧
      Key.init testGenerator testNetwork (some 3) none true =
        .error .invalidPublicPair) ∧
    (Key.init testGenerator testNetwork (some 1) none true = .ok testKey ∧
      testGenerator.contains_point testKey.public_pair.1
        testKey.public_pair.2 = true) :=
  ⟨⟨by decide,
    (C5_init_public_pair_validation testGenerator testNetwork true).1 0 0
      (by decide)⟩,
   ⟨rfl,
    (C5_init_public_pair_validation testGenerator testNetwork true).2.1
      (none, some 2) (Or.inl rfl)⟩,
   ⟨by decide, by decide, by decide, by decide,
    (C5_init_public_pair_validation testGenerator testNetwork true).2.2.1
      2 0 0 (by decide) (by decide) (by decide) (by decide)⟩,
   ⟨by decide, by decide, by decide,
    (C5_init_public_pair_validation testGenerator testNetwork true).2.2.2.1
      3 (by decide) (by decide) (Or.inl (by decide))⟩,
   ⟨testKey_init,
    (C5_init_public_pair_validation testGenerator testNetwork true).2.2.2.2
      (some 1) none true testKey testKey_init⟩⟩

/-- C6: `sign` on a Key without a secret scalar fails with the `NotPrivate`
error (the `RuntimeError` of the source); on a private Key it interprets
the digest as a big-endian integer, calls the generator's sign primitive
with the secret scalar, and returns the codec encoding of the resulting
`(r, s)` pair. -/
theorem C6_sign_contract (k : Key) (h : List Nat) :
    (k.secret_exponent = none → k.sign h = .error .notPrivate) ∧
    (∀ se : Nat, k.secret_exponent = some se →
      k.sign h = .ok (sigencode_der (k.generator.sign se (from_bytes_32 h)).1
        (k.generator.sign se (from_bytes_32 h)).2)) := by
  constructor
  · intro hn
    simp [Key.sign, hn]
  · intro se hse
    simp [Key.sign, hse]

theorem C6_sign_contract_witness :
    (testPublicKey.secret_exponent = none ∧
      testPublicKey.sign (List.replicate 32 0) = .error .notPrivate) ∧
    (testKey.secret_exponent = some 1 ∧
      testKey.sign (List.replicate 32 0) =
        .ok (sigencode_der
          (testKey.generator.sign 1 (from_bytes_32 (List.replicate 32 0))).1
          (testKey.generator.sign 1 (from_bytes_32 (List.replicate 32 0))).2)) :=
  ⟨⟨rfl, (C6_sign_contract testPublicKey (List.replicate 32 0)).1 rfl⟩,
   ⟨rfl, (C6_sign_contract testKey (List.replicate 32 0)).2 1 rfl⟩⟩

/-- C7: `wif` on a public-only Key returns `None` rather than failing; on
a private Key the blob passed to the network's private-export encoder is
the 32-byte big-endian encoding of the secret scalar, with one trailing
`0x01` byte appended iff the effective compression flag (the override if
given, else the Key's stored default) is true. -/
theorem C7_wif_contract (k : Key) (ic : Option Bool) :
    (k.secret_exponent = none → k.wif ic = none) ∧
    (∀ se : Nat, k.secret_exponent = some se →
      (to_bytes_32 se).length = 32 ∧
      k.wif ic = some (k.network.wif_for_blob
        (to_bytes_32 se ++ (if ic.getD k.is_compressed then [1] else [])))) := by
  constructor
  · intro hn
    simp [Key.wif, hn]
  · intro se hse
    exact ⟨to_bytes_32_length se, by simp [Key.wif, hse]⟩

theorem C7_wif_contract_witness :
    (testPublicKey.secret_exponent = none ∧ testPublicKey.wif none = none) ∧
    (testKey.secret_exponent = some 1 ∧
      (to_bytes_32 1).length = 32 ∧
      testKey.wif none = some (testKey.network.wif_for_blob
        (to_bytes_32 1 ++
          (if Option.getD none testKey.is_compressed then [1] else [])))) :=
  ⟨⟨rfl, (C7_wif_contract testPublicKey none).1 rfl⟩,
   ⟨rfl, ((C7_wif_contract testKey none).2 1 rfl).1,
    ((C7_wif_contract testKey none).2 1 rfl).2⟩⟩

/-- C1 counterexample: the claim "`verify` with signature bytes that the
codec cannot decode returns false and never raises" fails on the code:
`Key.verify` (lines 193-199) passes `sigdecode_der(sig)` to the generator
with no exception handler, so an undecodable signature propagates the
codec's decode failure instead of returning false.  Concretely, verifying
the empty signature byte string against a 32-byte zero digest is the
propagated decode error, not `false`. -/
theorem C1_counterexample :
    testKey.verify (List.replicate 32 0) [] = .error .invalidEncoding ∧
    testKey.verify (List.replicate 32 0) [] ≠ .ok false := by
  constructor
  · rfl
  · intro hcontra
    simp [Key.verify, sigdecode_der] at hcontra

/-- C1 (amended): for every Key (private or public), every digest and
every signature byte string that the codec cannot decode, `verify`
propagates the codec's decode failure (an exception in the source) rather
than returning false. -/
theorem C1_verify_propagates_decode_failure (k : Key) (h sig : List Nat)
    (e : KeyError) (hd : sigdecode_der sig = .error e) :
    k.verify h sig = .error e := by
  simp [Key.verify, hd]

theorem C1_verify_propagates_decode_failure_witness :
    sigdecode_der [] = .error .invalidEncoding ∧
    testKey.verify (List.replicate 32 1) [] = .error .invalidEncoding :=
  ⟨rfl, C1_verify_propagates_decode_failure testKey (List.replicate 32 1) []
    .invalidEncoding rfl⟩

/-! ## SEC encode/decode round trip -/

theorem from_bytes_to_bytes_32 (v : Nat) (h : v < 2 ^ 256) :
    from_bytes (to_bytes_32 v) = v :=
  from_bytes_32_to_bytes_32 v h

theorem is_sec_compressed_public_pair_to_sec (x y : Nat) (c : Bool) :
    is_sec_compressed (public_pair_to_sec (x, y) c) = c := by
  cases c
  · simp [public_pair_to_sec, is_sec_compressed]
  · by_cases h : y % 2 = 0 <;>
      simp [public_pair_to_sec, is_sec_compressed, h]

theorem sec_to_public_pair_public_pair_to_sec (g : Generator) (x y : Nat)
    (c : Bool) (hcp : g.contains_point x y = true)
    (hx : x < 2 ^ 256) (hy : y < 2 ^ 256)
    (hrec : g.recoverY x (decide (y % 2 = 1)) = some y) :
    sec_to_public_pair g (public_pair_to_sec (x, y) c) = .ok (x, y) := by
  cases c
  · show sec_to_public_pair g (4 :: (to_bytes_32 x ++ to_bytes_32 y)) = _
    simp [sec_to_public_pair, to_bytes_32_length, take_32_append_to_bytes,
      drop_32_append_to_bytes, from_bytes_to_bytes_32 x hx,
      from_bytes_to_bytes_32 y hy, hcp]
  · by_cases hpar : y % 2 = 0
    · have hrec2 : g.recoverY x false = some y := by
        rw [show decide (y % 2 = 1) = false by simp [hpar]] at hrec
        exact hrec
      show sec_to_public_pair g
        ((if y % 2 = 0 then 2 else 3) :: to_bytes_32 x) = _
      rw [if_pos hpar]
      simp [sec_to_public_pair, to_bytes_32_length,
        from_bytes_to_bytes_32 x hx, hrec2, hcp]
    · have hpar1 : y % 2 = 1 := by omega
      have hrec2 : g.recoverY x true = some y := by
        rw [show decide (y % 2 = 1) = true by simp [hpar1]] at hrec
        exact hrec
      show sec_to_public_pair g
        ((if y % 2 = 0 then 2 else 3) :: to_bytes_32 x) = _
      rw [if_neg hpar]
      simp [sec_to_public_pair, to_bytes_32_length,
        from_bytes_to_bytes_32 x hx, hrec2, hcp]

/-- C2: for every scalar `s` with `1 <= s < generator.order()` whose
derived public point is a finite on-curve point with 32-byte coordinates
and recoverable y-parity, constructing a Key from `secret_exponent = s`
succeeds, and the SEC bytes produced by `sec()`, decoded back via
`from_sec` with the same generator, yield a Key with the same public pair
and the same `is_compressed` flag. -/
theorem C2_sec_round_trip (g : Generator) (net : Network) (s : Nat)
    (ic : Bool) (x y : Nat)
    (hs1 : 1 ≤ s) (hs2 : s < g.order)
    (hmul : g.mulBase s = (some x, some y))
    (hcp : g.contains_point x y = true)
    (hx : x < 2 ^ 256) (hy : y < 2 ^ 256)
    (hrec : g.recoverY x (decide (y % 2 = 1)) = some y) :
    ∃ k k2 : Key,
      Key.init g net (some s) none ic = .ok k ∧
      k.public_pair = (x, y) ∧ k.is_compressed = ic ∧
      Key.from_sec g net (k.sec none) = .ok k2 ∧
      k2.public_pair = k.public_pair ∧
      k2.is_compressed = k.is_compressed := by
  have hcond : ¬(s < 1 ∨ s ≥ g.order) := by omega
  refine ⟨⟨some s, (x, y), ic, none, none, g, net⟩,
    ⟨none, (x, y), is_sec_compressed (public_pair_to_sec (x, y) ic),
      none, none, g, net⟩, ?_, rfl, rfl, ?_, rfl, ?_⟩
  · simp only [Key.init, if_neg hcond, hmul]
    exact Key.initFinish_contains_ok g net (some s) x y ic hcp
  · show Key.from_sec g net (public_pair_to_sec (x, y) ic) = _
    simp only [Key.from_sec,
      sec_to_public_pair_public_pair_to_sec g x y ic hcp hx hy hrec]
    simp only [Key.init]
    exact Key.initFinish_contains_ok g net none x y
      (is_sec_compressed (public_pair_to_sec (x, y) ic)) hcp
  · show is_sec_compressed (public_pair_to_sec (x, y) ic) = ic
    exact is_sec_compressed_public_pair_to_sec x y ic

theorem C2_sec_round_trip_witness :
    ((1 ≤ 1 ∧ 1 < testGenerator.order) ∧
      testGenerator.mulBase 1 = (some 2, some 2) ∧
      testGenerator.contains_point 2 2 = true ∧
      (2 < 2 ^ 256 ∧ 2 < 2 ^ 256) ∧
      testGenerator.recoverY 2 (decide (2 % 2 = 1)) = some 2) ∧
    (∃ k k2 : Key,
      Key.init testGenerator testNetwork (some 1) none true = .ok k ∧
      k.public_pair = (2, 2) ∧ k.is_compressed = true ∧
      Key.from_sec testGenerator testNetwork (k.sec none) = .ok k2 ∧
      k2.public_pair = k.public_pair ∧
      k2.is_compressed = k.is_compressed) :=
  ⟨⟨⟨by decide, by decide⟩, by decide, by decide, ⟨by decide, by decide⟩,
    by decide⟩,
   C2_sec_round_trip testGenerator testNetwork 1 true 2 2 (by decide)
     (by decide) (by decide) (by decide) (by decide) (by decide) (by decide)⟩

/-! ## Digest caching -/

/-- The cache-coherence invariant of a `Key`: each filled digest-cache
slot holds exactly the short-hash of the SEC encoding at that slot's
compression style.  Freshly constructed Keys (both slots empty) satisfy
it, and `hash160` preserves it. -/
def Key.cacheOK (k : Key) (hashF : List Nat → List Nat) : Bool :=
  (k.hash160_compressed == none
    || k.hash160_compressed == some (hashF (k.sec (some true)))) &&
  (k.hash160_uncompressed == none
    || k.hash160_uncompressed == some (hashF (k.sec (some false))))

theorem Key.hash160_eq_of_compressed_some (k : Key)
    (hashF : List Nat → List Nat) (ic : Option Bool) (v : List Nat)
    (hc : ic.getD k.is_compressed = true)
    (hslot : k.hash160_compressed = some v) :
    k.hash160 hashF ic = (v, k) := by
  simp [Key.hash160, hc, hslot]

theorem Key.hash160_eq_of_compressed_none (k : Key)
    (hashF : List Nat → List Nat) (ic : Option Bool)
    (hc : ic.getD k.is_compressed = true)
    (hslot : k.hash160_compressed = none) :
    k.hash160 hashF ic =
      (hashF (k.sec (some true)),
       { k with hash160_compressed := some (hashF (k.sec (some true))) }) := by
  simp [Key.hash160, hc, hslot]

theorem Key.hash160_eq_of_uncompressed_some (k : Key)
    (hashF : List Nat → List Nat) (ic : Option Bool) (v : List Nat)
    (hc : ic.getD k.is_compressed = false)
    (hslot : k.hash160_uncompressed = some v) :
    k.hash160 hashF ic = (v, k) := by
  simp [Key.hash160, hc, hslot]

theorem Key.hash160_eq_of_uncompressed_none (k : Key)
    (hashF : List Nat → List Nat) (ic : Option Bool)
    (hc : ic.getD k.is_compressed = false)
    (hslot : k.hash160_uncompressed = none) :
    k.hash160 hashF ic =
      (hashF (k.sec (some false)),
       { k with hash160_uncompressed := some (hashF (k.sec (some false))) }) := by
  simp [Key.hash160, hc, hslot]

/-- Full behaviour of one `hash160` call on a cache-coherent `Key`:
the returned digest is the short-hash of the SEC encoding at the resolved
compression style; no field other than the style's own cache slot changes;
cache coherence is preserved; and an immediately repeated call returns the
same digest and the same state. -/
theorem Key.hash160_spec (k : Key) (hashF : List Nat → List Nat)
    (ic : Option Bool) (hok : k.cacheOK hashF = true) :
    (k.hash160 hashF ic).1 =
      hashF (k.sec (some (ic.getD k.is_compressed))) ∧
    (k.hash160 hashF ic).2.secret_exponent = k.secret_exponent ∧
    (k.hash160 hashF ic).2.public_pair = k.public_pair ∧
    (k.hash160 hashF ic).2.is_compressed = k.is_compressed ∧
    (k.hash160 hashF ic).2.generator = k.generator ∧
    (k.hash160 hashF ic).2.network = k.network ∧
    (ic.getD k.is_compressed = true →
      (k.hash160 hashF ic).2.hash160_uncompressed = k.hash160_uncompressed) ∧
    (ic.getD k.is_compressed = false →
      (k.hash160 hashF ic).2.hash160_compressed = k.hash160_compressed) ∧
    (k.hash160 hashF ic).2.cacheOK hashF = true ∧
    (k.hash160 hashF ic).2.hash160 hashF ic =
      ((k.hash160 hashF ic).1, (k.hash160 hashF ic).2) := by
  rw [Key.cacheOK, Bool.and_eq_true] at hok
  obtain ⟨hokC, hokU⟩ := hok
  by_cases hc : ic.getD k.is_compressed
  · rcases hslot : k.hash160_compressed with _ | v
    · have heq := Key.hash160_eq_of_compressed_none k hashF ic hc hslot
      rw [heq]
      refine ⟨by rw [hc], rfl, rfl, rfl, rfl, rfl, fun _ => rfl,
        fun h => absurd hc (by simp [h]), ?_, ?_⟩
      · rw [Key.cacheOK, Bool.and_eq_true]
        constructor
        · simp [Key.sec]
        · simpa [Key.sec] using hokU
      · exact Key.hash160_eq_of_compressed_some _ hashF ic _ hc rfl
    · have heq := Key.hash160_eq_of_compressed_some k hashF ic v hc hslot
      have hv : v = hashF (k.sec (some true)) := by
        simp [hslot] at hokC
        exact hokC
      rw [heq]
      refine ⟨by rw [hc, ← hv], rfl, rfl, rfl, rfl, rfl, fun _ => rfl,
        fun h => absurd hc (by simp [h]), ?_, ?_⟩
      · rw [Key.cacheOK, Bool.and_eq_true]
        exact ⟨by simp [hslot, hv], hokU⟩
      · exact Key.hash160_eq_of_compressed_some k hashF ic v hc hslot
  · have hc' : ic.getD k.is_compressed = false := by
      simpa using hc
    rcases hslot : k.hash160_uncompressed with _ | v
    · have heq := Key.hash160_eq_of_uncompressed_none k hashF ic hc' hslot
      rw [heq]
      refine ⟨by rw [hc'], rfl, rfl, rfl, rfl, rfl,
        fun h => absurd h (by simp [hc']), fun _ => rfl, ?_, ?_⟩
      · rw [Key.cacheOK, Bool.and_eq_true]
        constructor
        · simpa [Key.sec] using hokC
        · simp [Key.sec]
      · exact Key.hash160_eq_of_uncompressed_some _ hashF ic _ hc' rfl
    · have heq := Key.hash160_eq_of_uncompressed_some k hashF ic v hc' hslot
      have hv : v = hashF (k.sec (some false)) := by
        simp [hslot] at hokU
        exact hokU
      rw [heq]
      refine ⟨by rw [hc', ← hv], rfl, rfl, rfl, rfl, rfl,
        fun h => absurd h (by simp [hc']), fun _ => rfl, ?_, ?_⟩
      · rw [Key.cacheOK, Bool.and_eq_true]
        exact ⟨hokC, by simp [hslot, hv]⟩
      · exact Key.hash160_eq_of_uncompressed_some k hashF ic v hc' hslot

/-- C8: for every cache-coherent Key and each compression style,
`hash160(style)` equals the short-hash of the Key's SEC encoding at that
style; the result is cached in the style's own slot while the other
style's slot is untouched; and calling it twice with the same style
returns byte-identical results and the identical state (the cache is
externally unobservable except for cost). -/
theorem C8_hash160_cache (k : Key) (hashF : List Nat → List Nat)
    (ic : Option Bool) (hok : k.cacheOK hashF = true) :
    (k.hash160 hashF ic).1 =
      hashF (k.sec (some (ic.getD k.is_compressed))) ∧
    (ic.getD k.is_compressed = true →
      (k.hash160 hashF ic).2.hash160_compressed =
        some (k.hash160 hashF ic).1 ∧
      (k.hash160 hashF ic).2.hash160_uncompressed =
        k.hash160_uncompressed) ∧
    (ic.getD k.is_compressed = false →
      (k.hash160 hashF ic).2.hash160_uncompressed =
        some (k.hash160 hashF ic).1 ∧
      (k.hash160 hashF ic).2.hash160_compressed = k.hash160_compressed) ∧
    ((k.hash160 hashF ic).2.hash160 hashF ic).1 = (k.hash160 hashF ic).1 ∧
    ((k.hash160 hashF ic).2.hash160 hashF ic).2 = (k.hash160 hashF ic).2 ∧
    (k.hash160 hashF ic).2.cacheOK hashF = true := by
  obtain ⟨h1, _, _, _, _, _, h7, h8, h9, h10⟩ :=
    Key.hash160_spec k hashF ic hok
  refine ⟨h1, ?_, ?_, by rw [h10], by rw [h10], h9⟩
  · intro hc
    refine ⟨?_, h7 hc⟩
    rcases hslot : k.hash160_compressed with _ | v
    · rw [Key.hash160_eq_of_compressed_none k hashF ic hc hslot]
    · rw [Key.hash160_eq_of_compressed_some k hashF ic v hc hslot]
      exact hslot
  · intro hc
    refine ⟨?_, h8 hc⟩
    rcases hslot : k.hash160_uncompressed with _ | v
    · rw [Key.hash160_eq_of_uncompressed_none k hashF ic hc hslot]
    · rw [Key.hash160_eq_of_uncompressed_some k hashF ic v hc hslot]
      exact hslot

theorem C8_hash160_cache_witness :
    testKey.cacheOK testHash = true ∧
    ((testKey.hash160 testHash none).1 =
      testHash (testKey.sec (some (Option.getD none testKey.is_compressed))) ∧
    (Option.getD none testKey.is_compressed = true →
      (testKey.hash160 testHash none).2.hash160_compressed =
        some (testKey.hash160 testHash none).1 ∧
      (testKey.hash160 testHash none).2.hash160_uncompressed =
        testKey.hash160_uncompressed) ∧
    (Option.getD none testKey.is_compressed = false →
      (testKey.hash160 testHash none).2.hash160_uncompressed =
        some (testKey.hash160 testHash none).1 ∧
      (testKey.hash160 testHash none).2.hash160_compressed =
        testKey.hash160_compressed) ∧
    ((testKey.hash160 testHash none).2.hash160 testHash none).1 =
      (testKey.hash160 testHash none).1 ∧
    ((testKey.hash160 testHash none).2.hash160 testHash none).2 =
      (testKey.hash160 testHash none).2 ∧
    (testKey.hash160 testHash none).2.cacheOK testHash = true) :=
  ⟨rfl, C8_hash160_cache testKey testHash none rfl⟩

/-- One digest-producing method call.  `hash160`, `fingerprint` and
`address` are the only methods of the source that assign to an attribute
(the lazy `hash160` cache fill); every other method contains no assignment
and is embedded as a pure function of the `Key`. -/
inductive KeyOp where
  | hash160Call : Option Bool → KeyOp
  | fingerprintCall : Option Bool → KeyOp
  | addressCall : Option Bool → KeyOp

/-- The state effect of one digest-producing method call. -/
def Key.applyOp (k : Key) (hashF : List Nat → List Nat) : KeyOp → Key
  | .hash160Call ic => (k.hash160 hashF ic).2
  | .fingerprintCall ic => (k.fingerprint hashF ic).2
  | .addressCall ic => (k.address hashF ic).2

/-- The state after a sequence of method calls. -/
def Key.runOps (k : Key) (hashF : List Nat → List Nat) : List KeyOp → Key
  | [] => k
  | op :: ops => (k.applyOp hashF op).runOps hashF ops

theorem Key.applyOp_spec (k : Key) (hashF : List Nat → List Nat)
    (op : KeyOp) (hok : k.cacheOK hashF = true) :
    (k.applyOp hashF op).secret_exponent = k.secret_exponent ∧
    (k.applyOp hashF op).public_pair = k.public_pair ∧
    (k.applyOp hashF op).is_compressed = k.is_compressed ∧
    (k.applyOp hashF op).generator = k.generator ∧
    (k.applyOp hashF op).network = k.network ∧
    (k.applyOp hashF op).cacheOK hashF = true := by
  cases op with
  | hash160Call ic =>
    obtain ⟨_, h2, h3, h4, h5, h6, _, _, h9, _⟩ :=
      Key.hash160_spec k hashF ic hok
    exact ⟨h2, h3, h4, h5, h6, h9⟩
  | fingerprintCall ic =>
    obtain ⟨_, h2, h3, h4, h5, h6, _, _, h9, _⟩ :=
      Key.hash160_spec k hashF ic hok
    exact ⟨h2, h3, h4, h5, h6, h9⟩
  | addressCall ic =>
    obtain ⟨_, h2, h3, h4, h5, h6, _, _, h9, _⟩ :=
      Key.hash160_spec k hashF ic hok
    exact ⟨h2, h3, h4, h5, h6, h9⟩

/-- C9: after any sequence of method calls on a cache-coherent Key, the
secret exponent, public pair, stored compression default and the two
injected capabilities are unchanged; the cache stays coherent (only the
two digest-cache slots are ever written, and only with the coherent
value); and the cache fill is idempotent: a repeated `hash160` call
yields the same bytes and the same state. -/
theorem C9_immutability (k : Key) (hashF : List Nat → List Nat)
    (ops : List KeyOp) (hok : k.cacheOK hashF = true) :
    (k.runOps hashF ops).secret_exponent = k.secret_exponent ∧
    (k.runOps hashF ops).public_pair = k.public_pair ∧
    (k.runOps hashF ops).is_compressed = k.is_compressed ∧
    (k.runOps hashF ops).generator = k.generator ∧
    (k.runOps hashF ops).network = k.network ∧
    (k.runOps hashF ops).cacheOK hashF = true ∧
    (∀ ic : Option Bool,
      ((k.runOps hashF ops).hash160 hashF ic).2.hash160 hashF ic =
        (((k.runOps hashF ops).hash160 hashF ic).1,
         ((k.runOps hashF ops).hash160 hashF ic).2)) := by
  induction ops generalizing k with
  | nil =>
    refine ⟨rfl, rfl, rfl, rfl, rfl, hok, ?_⟩
    intro ic
    exact (Key.hash160_spec k hashF ic hok).2.2.2.2.2.2.2.2.2
  | cons op ops ih =>
    obtain ⟨h1, h2, h3, h4, h5, h6⟩ := Key.applyOp_spec k hashF op hok
    obtain ⟨g1, g2, g3, g4, g5, g6, g7⟩ := ih (k.applyOp hashF op) h6
    exact ⟨g1.trans h1, g2.trans h2, g3.trans h3, g4.trans h4,
      g5.trans h5, g6, g7⟩

theorem C9_immutability_witness :
    testKey.cacheOK testHash = true ∧
    ((testKey.runOps testHash
        [KeyOp.hash160Call none, KeyOp.addressCall (some false),
         KeyOp.fingerprintCall (some true)]).secret_exponent =
      testKey.secret_exponent ∧
    (testKey.runOps testHash
        [KeyOp.hash160Call none, KeyOp.addressCall (some false),
         KeyOp.fingerprintCall (some true)]).public_pair =
      testKey.public_pair ∧
    (testKey.runOps testHash
        [KeyOp.hash160Call none, KeyOp.addressCall (some false),
         KeyOp.fingerprintCall (some true)]).is_compressed =
      testKey.is_compressed ∧
    (testKey.runOps testHash
        [KeyOp.hash160Call none, KeyOp.addressCall (some false),
         KeyOp.fingerprintCall (some true)]).generator =
      testKey.generator ∧
    (testKey.runOps testHash
        [KeyOp.hash160Call none, KeyOp.addressCall (some false),
         KeyOp.fingerprintCall (some true)]).network = testKey.network ∧
    (testKey.runOps testHash
        [KeyOp.hash160Call none, KeyOp.addressCall (some false),
         KeyOp.fingerprintCall (some true)]).cacheOK testHash = true ∧
    (∀ ic : Option Bool,
      ((testKey.runOps testHash
          [KeyOp.hash160Call none, KeyOp.addressCall (some false),
           KeyOp.fingerprintCall (some true)]).hash160 testHash ic).2.hash160
          testHash ic =
        (((testKey.runOps testHash
            [KeyOp.hash160Call none, KeyOp.addressCall (some false),
             KeyOp.fingerprintCall (some true)]).hash160 testHash ic).1,
         ((testKey.runOps testHash
            [KeyOp.hash160Call none, KeyOp.addressCall (some false),
             KeyOp.fingerprintCall (some true)]).hash160 testHash ic).2))) :=
  ⟨rfl, C9_immutability testKey testHash
    [KeyOp.hash160Call none, KeyOp.addressCall (some false),
     KeyOp.fingerprintCall (some true)] rfl⟩
